import Mathlib

/-!
Verification development for the nagra data-access layer
(src/nagra/table.py, src/nagra/exceptions.py, src/tests/test_sexpr.py).

The Python code is shallowly embedded: tables and columns become Lean
structures, dicts become insertion-ordered association lists, fallible
code returns `Except`, and the mutable alias environment is explicit
state passing.  Components of the repository that are not present under
src/ (the s-expression parser/evaluator in nagra/sexpr.py and the schema
registry in nagra/schema.py) are modelled from the specification, and
are marked as such in their doc comments.
-/

namespace Nagra

/-- Error values for the embedded Python code.  Each constructor records
which Python exception the embedded code would raise. -/
inductive TblErr where
  /-- Python `ValueError` raised by `Column.__init__` for an unsupported
  dtype string. -/
  | unsupportedType (dtype : String) (name : String)
  /-- Python `KeyError` raised by `Table.join_on` when `head` is neither a
  foreign key nor a one2many relation; per spec section 7 this surfaces as
  the UnresolvedFK / UnresolvedRelation failure of nagra/exceptions.py. -/
  | unresolvedFK (col : String)
  /-- Failure of `schema.get` on an unknown table name. -/
  | missingTable (n : String)
  /-- Python `ValueError` from unpacking a malformed "table.column"
  one2many encoding. -/
  | badOne2Many (s : String)
  /-- `Table.join_on` called on an empty path does not terminate in the
  source; the embedding maps it to an error. -/
  | emptyPath
  /-- `nagra.exceptions.IncorrectTable` raised by `Table.__init__` for a
  foreign key that collapses a single-column natural key. -/
  | incorrectTable (msg : String)
deriving Repr, DecidableEq

/-- Embedding of `nagra.table.Column` (fields after `__init__`). -/
structure Column where
  name : String
  dtype : String
  dims : String
deriving Repr, DecidableEq

/-- Python `str.split(sep)` for a one-character separator: split at every
occurrence, keeping empty pieces (structural over the character list so
that it evaluates inside the kernel, unlike `String.splitOn`). -/
def splitChar (c : Char) : List Char → List (List Char)
  | [] => [[]]
  | x :: xs =>
    if x = c then [] :: splitChar c xs
    else
      match splitChar c xs with
      | [] => [[x]]
      | g :: gs => (x :: g) :: gs

/-- `String`-level wrapper of `splitChar`. -/
def pySplit (s : String) (c : Char) : List String :=
  (splitChar c s.data).map (fun l => String.mk l)

/-- Python `str.split(sep, 1)` for a one-character separator: the part
before the first occurrence, and the remainder when the separator
occurs. -/
def splitFirst (c : Char) : List Char → List Char × Option (List Char)
  | [] => ([], none)
  | x :: xs =>
    if x = c then ([], some xs)
    else
      let r := splitFirst c xs
      (x :: r.1, r.2)

/-- Python `str.strip()`: drop leading and trailing whitespace. -/
def pyStrip (s : String) : String :=
  String.mk (((s.data.dropWhile Char.isWhitespace).reverse.dropWhile
    Char.isWhitespace).reverse)

/-- Python `str.upper()` on ASCII identifiers. -/
def pyUpper (s : String) : String :=
  String.mk (s.data.map Char.toUpper)

/-- The `_TYPE_ALIAS` table of src/nagra/table.py (lowercase block). -/
def typeAliasBase : List (String × String) :=
  [("str", "str"), ("varchar", "str"), ("character varying", "str"),
   ("text", "str"), ("int", "int"), ("integer", "int"),
   ("bigint", "bigint"), ("float", "float"), ("double precision", "float"),
   ("numeric", "float"), ("timestamp", "timestamp"),
   ("timestamp without time zone", "timestamp"),
   ("timestamptz", "timestamptz"),
   ("timestamp with time zone", "timestamptz"),
   ("date", "date"), ("bool", "bool"), ("boolean", "bool"),
   ("uuid", "uuid"), ("json", "json"), ("blob", "blob"), ("bytea", "blob")]

/-- `_TYPE_ALIAS` with the uppercase variants appended, as done by
`_TYPE_ALIAS.update({k.upper(): v ...})` in the source. -/
def typeAlias : List (String × String) :=
  typeAliasBase ++ typeAliasBase.map (fun kv => (pyUpper kv.1, kv.2))

/-- First-match lookup in an association list with `String` keys,
mirroring Python `dict.get`. -/
def lookupStr (l : List (String × String)) (k : String) : Option String :=
  (l.find? (fun kv => kv.1 == k)).map (fun kv => kv.2)

/-- Embedding of `Column.__init__`: split the dtype at the first "[" into
a base type and array dims, then translate the base through `_TYPE_ALIAS`;
an unknown base raises `ValueError`. -/
def mkColumn (name : String) (dtype : String) : Except TblErr Column :=
  let sp := splitFirst (Char.ofNat 91) dtype.data
  let base := String.mk sp.1
  let dims :=
    match sp.2 with
    | some rest => "[" ++ pyStrip (String.mk rest)
    | none => ""
  match lookupStr typeAlias (pyStrip base) with
  | some t => .ok { name := pyStrip name, dtype := t, dims := dims }
  | none => .error (.unsupportedType dtype name)

/-- Embedding of `nagra.table.Table` (fields after `__init__`).  The
`schema` back-reference and the `default` value mapping are omitted: no
modelled operation reads them (the schema registry is passed explicitly
to the operations that consult it). -/
structure Table where
  name : String
  columns : List (String × Column)
  natural_key : List String
  foreign_keys : List (String × String)
  not_null : List String
  one2many : List (String × String)
  primary_key : String
deriving Repr, DecidableEq

/-- Columns dict construction `{name: Column(name, dtype) ...}`,
propagating the first `ValueError`. -/
def buildColumns : List (String × String) → Except TblErr (List (String × Column))
  | [] => .ok []
  | (n, d) :: rest => do
    let c ← mkColumn n d
    let cs ← buildColumns rest
    .ok ((n, c) :: cs)

/-- Embedding of `Table.__init__`.  Optional arguments are `Option`s;
`natural_key or list(columns)` and the other falsy defaults are mapped
through emptiness checks; `primary_key` uses an `is None` check as in the
source.  The `not_null` attribute is a Python set (union of the natural
key and the explicit list); it is stored here as the deduplicated list,
order-irrelevant since no modelled operation reads it. -/
def mkTable (name : String) (columns : List (String × String))
    (natural_key : Option (List String))
    (foreign_keys : Option (List (String × String)))
    (not_null : Option (List String))
    (one2many : Option (List (String × String)))
    (primary_key : Option String) : Except TblErr Table := do
  let cols ← buildColumns columns
  let nk := match natural_key with
    | some l => if l.isEmpty then columns.map (fun kv => kv.1) else l
    | none => columns.map (fun kv => kv.1)
  let fks := (foreign_keys.getD [])
  let nn := (nk ++ not_null.getD []).dedup
  let o2m := one2many.getD []
  let pk := match primary_key with
    | none => "id"
    | some p => p
  -- Detect malformed fk definitions (raise IncorrectTable)
  if nk.length = 1 then
    let nkc := nk.headD ""
    match fks.find? (fun kv => kv.1 == nkc && kv.2 == name) with
    | some kv =>
      .error (.incorrectTable
        ("Table " ++ name ++ ": Foreign key " ++ kv.1 ++ " refers to table natural key"))
    | none =>
      .ok { name := name, columns := cols, natural_key := nk,
            foreign_keys := fks, not_null := nn, one2many := o2m,
            primary_key := pk }
  else
    .ok { name := name, columns := cols, natural_key := nk,
          foreign_keys := fks, not_null := nn, one2many := o2m,
          primary_key := pk }

/-- The schema registry (nagra/schema.py, not under src/) reduced to what
the modelled operations use: `schema.get`, a mapping from table name to
`Table`.  Modelled from the spec: "Schema Registry: mapping from table
name to Table". -/
abbrev SchemaMap : Type := String → Option Table

/-- Alias environment refs: insertion-ordered mapping from relation-path
tuples to alias strings (a Python dict). -/
abbrev Refs : Type := List (List String × String)

/-- Embedding of `nagra.table.Env` (the alias environment). -/
structure Env where
  table : Table
  refs : Refs
deriving Repr, DecidableEq

/-- Embedding of `Table.join_on`, with a fuel argument making the
recursion on `path[:-1]` structural (so that the function evaluates
inside the kernel); `joinOn` supplies sufficient fuel.  `env` is
threaded exactly as in the source signature, where it is passed along
but never consulted. -/
def joinOnAux (sch : SchemaMap) : Nat → Table → List String → Env →
    Except TblErr (Table × String × String)
  | 0, _, _, _ => .error .emptyPath
  | fuel + 1, t, path, env =>
    match path with
    | [] => .error .emptyPath
    | [head] =>
      -- `if alias := self.one2many.get(head):` is a truthiness test
      let al := (lookupStr t.one2many head).getD ""
      if al ≠ "" then
        match pySplit al (Char.ofNat 46) with
        | [table_name, alias_col] =>
          match sch table_name with
          | some ftable => .ok (ftable, alias_col, ftable.primary_key)
          | none => .error (.missingTable table_name)
        | _ => .error (.badOne2Many al)
      else
        let join_col := head
        match lookupStr t.foreign_keys join_col with
        | none => .error (.unresolvedFK join_col)
        | some fname =>
          match sch fname with
          | some ftable => .ok (ftable, ftable.primary_key, join_col)
          | none => .error (.missingTable fname)
    | a :: b :: rest =>
      match joinOnAux sch fuel t (a :: b :: rest).dropLast env with
      | .error e => .error e
      | .ok (prev_table, _, _) =>
        joinOnAux sch fuel prev_table [(a :: b :: rest).getLastD ""] env

/-- `Table.join_on` on a path, with fuel `path.length + 1` (enough for
the recursion, which shortens the path at every step). -/
def joinOn (sch : SchemaMap) (t : Table) (path : List String) (env : Env) :
    Except TblErr (Table × String × String) :=
  joinOnAux sch (path.length + 1) t path env

mutual

/-- Embedding of `Table.default_columns`: iterate the natural key when
`nk_only` is set, the full column list otherwise, and let the loop
expand foreign keys.  The generator of the source is consumed eagerly
into a list; an error raised mid-iteration discards the partial list,
matching the callers, which materialize the generator fully. -/
def defaultColumns (sch : SchemaMap) (t : Table) (nkOnly : Bool) :
    Except TblErr (List String) :=
  if nkOnly then expandCols sch t true t.natural_key
  else expandCols sch t false (t.columns.map (fun kv => kv.1))
termination_by ((if nkOnly then 1 else 3 : Nat), 0)
decreasing_by all_goals (simp_all; try omega)

/-- The loop body of `Table.default_columns`: a column that is not a
foreign key (or any column under `nk_only`) is yielded unchanged; a
foreign-key column is expanded into `"{column}.{k}"` for each `k` in the
target table's `default_columns(nk_only=True)`. -/
def expandCols (sch : SchemaMap) (t : Table) (nkOnly : Bool) :
    List String → Except TblErr (List String)
  | [] => .ok []
  | c :: rest =>
    if (lookupStr t.foreign_keys c).isNone || nkOnly then
      (fun others => c :: others) <$> expandCols sch t nkOnly rest
    else
      match sch ((lookupStr t.foreign_keys c).getD "") with
      | none => .error (.missingTable ((lookupStr t.foreign_keys c).getD ""))
      | some ftable => do
        let ks ← defaultColumns sch ftable true
        let others ← expandCols sch t nkOnly rest
        .ok (ks.map (fun k => c ++ "." ++ k) ++ others)
termination_by l => ((if nkOnly then 0 else 2 : Nat), l.length)
decreasing_by all_goals (simp_all; try omega)

end

/-- The default column set in the words of the specification (section
4.6 and the claim): names in column-declaration order, non-foreign-key
columns passed through, each foreign-key column `c` replaced by the
dotted names `c.k` over the target table's natural-key columns. -/
def specExpand (sch : SchemaMap) (t : Table) :
    List String → Except TblErr (List String)
  | [] => .ok []
  | c :: rest =>
    match lookupStr t.foreign_keys c with
    | none => (fun others => c :: others) <$> specExpand sch t rest
    | some fname =>
      match sch fname with
      | none => .error (.missingTable fname)
      | some ftable =>
        (fun others => ftable.natural_key.map (fun k => c ++ "." ++ k) ++ others)
          <$> specExpand sch t rest

/-- `self.refs.get(prefix)`: first-match lookup of a relation-path key. -/
def lookupRef (refs : Refs) (k : List String) : Option String :=
  (refs.find? (fun kv => kv.1 == k)).map (fun kv => kv.2)

/-- Python dict assignment `refs[prefix] = alias`: replace the value in
place when the key is present (keeping its insertion position), append a
new entry otherwise. -/
def dictInsert (refs : Refs) (k : List String) (v : String) : Refs :=
  if (refs.find? (fun kv => kv.1 == k)).isSome then
    refs.map (fun kv => if kv.1 == k then (kv.1, v) else kv)
  else refs ++ [(k, v)]

/-- The registration core of `Env.add_ref`, acting on a prefix (the body
of `add_ref` after `prefix = tuple([*head, name])`): look the prefix up
with Python truthiness (`if not table_alias:`), and on a miss first
register the parent prefix when `len(prefix) >= 2` (the source's
recursive call `self.add_ref(prefix)` registers `prefix[:-1]`), then
allocate the alias `f"{name}_{len(self.refs)}"` and store it. -/
def registerPathAux : Nat → Refs → List String → Refs × String
  | 0, refs, _ => (refs, "")
  | fuel + 1, refs, pfx =>
    let a := (lookupRef refs pfx).getD ""
    if a ≠ "" then (refs, a)
    else
      let refs1 := if 2 ≤ pfx.length then (registerPathAux fuel refs pfx.dropLast).1 else refs
      let al := pfx.getLastD "" ++ "_" ++ toString refs1.length
      (dictInsert refs1 pfx al, al)

/-- `registerPathAux` with fuel `pfx.length + 1`, which is enough for the
parent-chain recursion (each step drops the last segment).  The fuel only
makes the recursion structural so that the function evaluates inside the
kernel. -/
def registerPath (refs : Refs) (pfx : List String) : Refs × String :=
  registerPathAux (pfx.length + 1) refs pfx

/-- Embedding of `Env.add_ref` on the refs dict: `*head, name, tail =
path` (a `ValueError` for paths shorter than two segments, mapped to
`none`), register `prefix = path[:-1]`, and return the quoted
`"alias"."tail"` column reference together with the updated refs. -/
def add_ref (refs : Refs) (path : List String) : Option (Refs × String) :=
  match path with
  | [] => none
  | [_] => none
  | _ =>
    let pfx := path.dropLast
    let tl := path.getLastD ""
    let r := registerPath refs pfx
    some (r.1, "\"" ++ r.2 ++ "\".\"" ++ tl ++ "\"")

/-- `Env.add_ref` at the `Env` level: mutation of `self.refs` becomes
returning the updated environment. -/
def Env.addRef (e : Env) (path : List String) : Option (Env × String) :=
  (add_ref e.refs path).map (fun r => ({ e with refs := r.1 }, r.2))

/-- The single-quote character, used by the SQL renderer for string
literals. -/
def sq : String := String.singleton (Char.ofNat 39)

/-- Modelled from the spec: the condition-language AST of nagra/sexpr.py
(not under src/), per spec section 3: integer literals, string literals,
placeholder parameters, dotted variable references (stored as their
segment list), and operator nodes with a child sequence. -/
inductive SAst where
  | intLit (n : Int)
  | strLit (s : String)
  | param
  | var (path : List String)
  | op (name : String) (args : List SAst)

/-- Rendered operator keyword; modelled from the spec (section 4.1
builtins) and the expected texts of src/tests/test_sexpr.py: word
operators render uppercased, symbolic operators render as themselves. -/
def opKeyword (s : String) : String :=
  if s = "and" then "AND"
  else if s = "or" then "OR"
  else if s = "not" then "NOT"
  else if s = "like" then "LIKE"
  else s

/-- Is this AST node an operator node (needing parentheses when nested)? -/
def isOpNode : SAst → Bool
  | .op _ _ => true
  | _ => false

mutual

/-- Modelled from the spec: the AST evaluator of nagra/sexpr.py (not
under src/), per spec section 4.2 and the expected outputs of
src/tests/test_sexpr.py.  A bare column renders as
`"<root-table>"."<column>"`; a dotted reference delegates to
`Env.add_ref`; literals render directly (strings single-quoted,
placeholders as `%s`); an operator node renders its children joined by
the operator keyword, wrapping nested operator children in parentheses.
An empty variable path cannot be produced by the parser; it renders as
the empty string. -/
def evalAst : SAst → Env → String × Env
  | .intLit n, e => (toString n, e)
  | .strLit s, e => (sq ++ s ++ sq, e)
  | .param, e => ("%s", e)
  | .var p, e =>
    match p with
    | [x] => ("\"" ++ e.table.name ++ "\".\"" ++ x ++ "\"", e)
    | _ =>
      match e.addRef p with
      | some (e2, s) => (s, e2)
      | none => ("", e)
  | .op nm args, e =>
    let r := evalArgs args e
    (String.intercalate (" " ++ opKeyword nm ++ " ") r.1, r.2)

/-- Evaluate operator children left to right, threading the environment
and parenthesizing nested operator nodes. -/
def evalArgs : List SAst → Env → List String × Env
  | [], e => ([], e)
  | a :: rest, e =>
    let r1 := evalAst a e
    let s := if isOpNode a then "(" ++ r1.1 ++ ")" else r1.1
    let r2 := evalArgs rest r1.2
    (s :: r2.1, r2.2)

end

/-! ### Lexer and parser (modelled from the spec) -/

/-- Modelled from the spec: parse-time failures of nagra/sexpr.py (not
under src/).  `ParseError` per spec section 7, with constructors naming
the particular malformation. -/
inductive PErr where
  | badChar (c : Char)
  | unterminatedString
  | unmatchedClose
  | missingOp
  | outOfFuel
  | trailing
  | emptyInput
deriving Repr, DecidableEq

/-- Modelled from the spec: the token alphabet of the condition
mini-language (spec sections 3 and 4.1): parentheses, integer literals,
single-quoted string literals, the placeholder, and dotted
names/operator symbols. -/
inductive Tok where
  | lparen
  | rparen
  | intTok (n : Int)
  | strTok (s : String)
  | paramTok
  | nameTok (s : String)
deriving Repr, DecidableEq

/-- Decimal digit run to a number. -/
def digitsToNat (ds : List Char) : Nat :=
  ds.foldl (fun acc d => acc * 10 + (d.toNat - 48)) 0

/-- First character of an identifier: a letter or an underscore. -/
def isNameStart (c : Char) : Bool :=
  c.isAlpha || c = Char.ofNat 95

/-- Identifier continuation: letters, digits, underscore, and the dot
joining path segments. -/
def isNameChar (c : Char) : Bool :=
  c.isAlpha || c.isDigit || c = Char.ofNat 95 || c = Char.ofNat 46

/-- Symbolic operator characters (`=`, `<`, `>`, `!`). -/
def isOpChar (c : Char) : Bool :=
  c = Char.ofNat 61 || c = Char.ofNat 60 || c = Char.ofNat 62 || c = Char.ofNat 33

/-- Modelled from the spec: the lexer of nagra/sexpr.py (not under
src/), per the grammar of spec section 4.1: whitespace separates tokens;
parentheses are single tokens; a single-quoted run is a string literal
(unterminated is a parse error); a digit starts an integer literal; a
brace pair is the placeholder; letters start dotted names, operator
characters start operator symbols; any other character is an
unrecognized-token parse error.  The fuel argument only makes the
recursion structural (each step consumes at least one character);
`tokenize` supplies sufficient fuel. -/
def tokenizeAux : Nat → List Char → Except PErr (List Tok)
  | 0, _ => .error .outOfFuel
  | _ + 1, [] => .ok []
  | fuel + 1, c :: rest =>
    if c.isWhitespace then tokenizeAux fuel rest
    else if c = Char.ofNat 40 then
      (fun ts => Tok.lparen :: ts) <$> tokenizeAux fuel rest
    else if c = Char.ofNat 41 then
      (fun ts => Tok.rparen :: ts) <$> tokenizeAux fuel rest
    else if c = Char.ofNat 39 then
      let body := rest.takeWhile (fun d => d ≠ Char.ofNat 39)
      match rest.drop body.length with
      | [] => .error .unterminatedString
      | _ :: rest3 =>
        (fun ts => Tok.strTok (String.mk body) :: ts) <$> tokenizeAux fuel rest3
    else if c.isDigit then
      let ds := rest.takeWhile Char.isDigit
      (fun ts => Tok.intTok (Int.ofNat (digitsToNat (c :: ds))) :: ts) <$>
        tokenizeAux fuel (rest.drop ds.length)
    else if c = Char.ofNat 123 then
      match rest with
      | d :: rest2 =>
        if d = Char.ofNat 125 then
          (fun ts => Tok.paramTok :: ts) <$> tokenizeAux fuel rest2
        else .error (.badChar d)
      | [] => .error (.badChar c)
    else if isNameStart c then
      let run := rest.takeWhile isNameChar
      (fun ts => Tok.nameTok (String.mk (c :: run)) :: ts) <$>
        tokenizeAux fuel (rest.drop run.length)
    else if isOpChar c then
      let run := rest.takeWhile isOpChar
      (fun ts => Tok.nameTok (String.mk (c :: run)) :: ts) <$>
        tokenizeAux fuel (rest.drop run.length)
    else .error (.badChar c)

/-- `tokenizeAux` with sufficient fuel. -/
def tokenize (cs : List Char) : Except PErr (List Tok) :=
  tokenizeAux (cs.length + 1) cs

mutual

/-- Modelled from the spec: the recursive-descent parser of
nagra/sexpr.py (not under src/) for `expr := atom | ( OP expr* )` (spec
section 4.1), with one amendment forced by src/tests/test_sexpr.py: that
test parses `(and (= parent.name 'Roger')` — input whose opening
parentheses are not all closed — successfully, so closing parentheses
missing at end of input are implicitly supplied; a closing parenthesis
with no opener is still an error.  The fuel makes the mutual recursion
structural; `parse` supplies sufficient fuel. -/
def parseExpr : Nat → List Tok → Except PErr (SAst × List Tok)
  | 0, _ => .error .outOfFuel
  | fuel + 1, toks =>
    match toks with
    | [] => .error .emptyInput
    | .intTok n :: r => .ok (.intLit n, r)
    | .strTok s :: r => .ok (.strLit s, r)
    | .paramTok :: r => .ok (.param, r)
    | .nameTok s :: r => .ok (.var (pySplit s (Char.ofNat 46)), r)
    | .rparen :: _ => .error .unmatchedClose
    | .lparen :: r =>
      match r with
      | .nameTok op :: r2 =>
        match parseMany fuel r2 with
        | .error e => .error e
        | .ok (args, r3) =>
          match r3 with
          | .rparen :: r4 => .ok (.op op args, r4)
          | [] => .ok (.op op args, [])
          | _ => .error .unmatchedClose
      | _ => .error .missingOp

/-- Argument sequence of an operator node: expressions until a closing
parenthesis or the end of input. -/
def parseMany : Nat → List Tok → Except PErr (List SAst × List Tok)
  | 0, _ => .error .outOfFuel
  | fuel + 1, toks =>
    match toks with
    | [] => .ok ([], [])
    | .rparen :: r => .ok ([], .rparen :: r)
    | _ =>
      match parseExpr fuel toks with
      | .error e => .error e
      | .ok (a, r1) =>
        match parseMany fuel r1 with
        | .error e => .error e
        | .ok (as, r2) => .ok (a :: as, r2)

end

/-- Modelled from the spec: `AST.parse` — tokenize, parse one
expression, and require the input to be exhausted (a leftover closing
parenthesis is an unmatched close).  Failures produce no partial
result. -/
def parse (text : String) : Except PErr SAst :=
  match tokenize text.data with
  | .error e => .error e
  | .ok toks =>
    match parseExpr (2 * toks.length + 2) toks with
    | .error e => .error e
    | .ok (ast, rest) =>
      match rest with
      | [] => .ok ast
      | .rparen :: _ => .error .unmatchedClose
      | _ => .error .trailing

/-- Net parenthesis count of a token sequence (opens minus closes). -/
def netOf : List Tok → Int
  | [] => 0
  | .lparen :: r => 1 + netOf r
  | .rparen :: r => -1 + netOf r
  | _ :: r => netOf r

/-- Minimum running parenthesis depth over the sequence's leading parts
(zero for the empty part); negative exactly when some closing
parenthesis has no matching opener before it. -/
def minOf : List Tok → Int
  | [] => 0
  | .lparen :: r => min 0 (1 + minOf r)
  | .rparen :: r => min 0 (-1 + minOf r)
  | _ :: r => minOf r

/-- Count occurrences of a character in a string. -/
def countChar (c : Char) (s : String) : Nat :=
  (s.data.filter (fun d => d = c)).length

/-! ### Concrete schema instances used by the scenario claims -/

/-- The `person` table of src/tests/test_sexpr.py: `Table("person",
columns={"name": "varchar", "parent": "int"}, foreign_keys={"parent":
"person"}, natural_key=["name"])`. -/
def personT : Table :=
  { name := "person",
    columns := [("name", { name := "name", dtype := "str", dims := "" }),
                ("parent", { name := "parent", dtype := "int", dims := "" })],
    natural_key := ["name"],
    foreign_keys := [("parent", "person")],
    not_null := ["name"],
    one2many := [],
    primary_key := "id" }

/-- A `city` table patterned on the doc example of src/nagra/table.py,
with a reverse relation `temperatures -> "temperature.city"`, but with a
non-default primary key, exposing the join-column choice of `join_on`. -/
def cityT : Table :=
  { name := "city",
    columns := [("name", { name := "name", dtype := "str", dims := "" })],
    natural_key := ["name"],
    foreign_keys := [],
    not_null := ["name"],
    one2many := [("temperatures", "temperature.city")],
    primary_key := "city_pk" }

/-- The matching `temperature` table, whose `city` column is a foreign
key to `city`; its own primary key differs from `city`'s. -/
def tempT : Table :=
  { name := "temperature",
    columns := [("timestamp", { name := "timestamp", dtype := "timestamp", dims := "" }),
                ("city", { name := "city", dtype := "int", dims := "" }),
                ("value", { name := "value", dtype := "float", dims := "" })],
    natural_key := ["city", "timestamp"],
    foreign_keys := [("city", "city")],
    not_null := ["city", "timestamp"],
    one2many := [],
    primary_key := "temp_pk" }

/-- Schema registry holding `city` and `temperature`. -/
def sch1 : SchemaMap := fun n =>
  if n = "city" then some cityT
  else if n = "temperature" then some tempT
  else none

/-- A fresh evaluation environment bound to `city`. -/
def envC : Env := { table := cityT, refs := [] }

/-- The parsed condition `(and (= parent.name 'Roger') (=
parent.parent.name 'George'))` of src/tests/test_sexpr.py. -/
def astA : SAst :=
  .op "and" [.op "=" [.var ["parent", "name"], .strLit "Roger"],
             .op "=" [.var ["parent", "parent", "name"], .strLit "George"]]

/-- The parsed condition `(and (= parent.name 'Roger') (= parent.id 1))`
of src/tests/test_sexpr.py. -/
def astB : SAst :=
  .op "and" [.op "=" [.var ["parent", "name"], .strLit "Roger"],
             .op "=" [.var ["parent", "id"], .intLit 1]]

/-- The unbalanced condition text parsed successfully by
src/tests/test_sexpr.py: `(and (= parent.name 'Roger')` (the string
literal quotes written via `sq`). -/
def testInput : String :=
  "(and (= parent.name " ++ sq ++ "Roger" ++ sq ++ ")"

/-! ### Invariants of the alias environment -/

/-- Ordinal invariant of a refs mapping: the entry at position `i` holds
the alias `"<last-segment-of-its-key>_<i>"`.  This is the alias-ordinal
discipline of `Env.add_ref`: the k-th newly registered prefix receives
the zero-based ordinal k, ordinals are the insertion positions, so they
increase monotonically and are never reused. -/
def ordinalInv (refs : Refs) : Prop :=
  ∀ i (h : i < refs.length),
    (refs.get ⟨i, h⟩).2 = (refs.get ⟨i, h⟩).1.getLastD "" ++ "_" ++ toString i

/-- Ancestor invariant of a key sequence: every key of length at least
two is preceded (strictly earlier in insertion order) by its parent
key, so a join-emission pass scanning the keys in order always finds
each join's anchor already present. -/
def keyInv (ks : List (List String)) : Prop :=
  ∀ i (h : i < ks.length), 2 ≤ (ks.get ⟨i, h⟩).length →
    (ks.get ⟨i, h⟩).dropLast ∈ ks.take i

/-- The keys of a refs mapping, in insertion order. -/
def keysOf (refs : Refs) : List (List String) :=
  refs.map (fun kv => kv.1)

/-! ### Heap model of Env identity (for `Env.clone`) -/

/-- A store of refs dicts.  Python dicts are mutable objects referenced
by identity; cell indices model that identity, so the copy performed by
`Env.clone` (`self.refs.copy()`) is distinguishable from sharing. -/
abbrev Store : Type := List Refs

/-- An `Env` as the Python runtime holds it: the (immutable) table and a
reference to a refs dict in the store. -/
structure EnvH where
  table : Table
  cell : Nat
deriving Repr, DecidableEq

/-- Read an Env's refs dict from the store. -/
def readCell (s : Store) (i : Nat) : Refs := s.getD i []

/-- Embedding of `Env.clone`: `Env(self.table, self.refs.copy())`
allocates a fresh dict holding a copy of the entries (`refs or \x7b\x7d`
in `__init__` allocates yet another fresh dict when the copy is empty —
a fresh, unshared cell either way). -/
def cloneH (s : Store) (e : EnvH) : Store × EnvH :=
  (s ++ [readCell s e.cell], { table := e.table, cell := s.length })

/-- `Env.add_ref` under the heap model: mutate the Env's refs dict in
place (a path shorter than two segments raises before any mutation). -/
def addRefH (s : Store) (e : EnvH) (path : List String) :
    Store × Option String :=
  match add_ref (readCell s e.cell) path with
  | none => (s, none)
  | some r => (s.set e.cell r.1, some r.2)

/-! ## Theorems -/

/-- `joinOnAux` never reads its environment argument: the result is the
same for any two environments, at every fuel. -/
theorem joinOnAux_env_indep (sch : SchemaMap) :
    ∀ (fuel : Nat) (t : Table) (path : List String) (e1 e2 : Env),
      joinOnAux sch fuel t path e1 = joinOnAux sch fuel t path e2 := by
  intro fuel
  induction fuel with
  | zero => intro t path e1 e2; rfl
  | succ n ih =>
    intro t path e1 e2
    match path with
    | [] => rfl
    | [head] => rfl
    | a :: b :: rest =>
      simp only [joinOnAux]
      rw [ih t ((a :: b :: rest).dropLast) e1 e2]
      cases joinOnAux sch n t ((a :: b :: rest).dropLast) e2 with
      | error e => rfl
      | ok v =>
        obtain ⟨p, q, r⟩ := v
        exact ih p [(a :: b :: rest).getLastD ""] e1 e2

/-- C6: `join_on` is referentially stable and depends only on the table
and the path: calls with the same `(table, path)` and any environment
arguments return identical `(foreign_table, join_column, local_column)`
results, in any call order (the function is pure in the embedding, so
call order cannot influence the result). -/
theorem join_on_referentially_stable
    (sch : SchemaMap) (t : Table) (path : List String) (env1 env2 : Env) :
    joinOn sch t path env1 = joinOn sch t path env2 :=
  joinOnAux_env_indep sch (path.length + 1) t path env1 env2

/-- C4: a single-segment path whose head is neither a declared reverse
relation nor a declared foreign key fails: `join_on` raises on the
foreign-key lookup, the unresolved-relation failure of the error
taxonomy. -/
theorem join_on_unresolved
    (sch : SchemaMap) (t : Table) (head : String) (env : Env)
    (h1 : lookupStr t.one2many head = none)
    (h2 : lookupStr t.foreign_keys head = none) :
    joinOn sch t [head] env = .error (.unresolvedFK head) := by
  simp [joinOn, joinOnAux, h1, h2]

/-- Witness for C4: on the concrete `city` table, the head `nope` is
neither a foreign key nor a reverse relation, and `join_on` fails. -/
theorem join_on_unresolved_witness :
    lookupStr cityT.one2many "nope" = none ∧
    lookupStr cityT.foreign_keys "nope" = none ∧
    joinOn sch1 cityT ["nope"] envC = .error (.unresolvedFK "nope") :=
  ⟨by decide, by decide,
   join_on_unresolved sch1 cityT "nope" envC (by decide) (by decide)⟩

/-- C1 (exhibit of the divergence): on the reverse relation
`temperatures = "temperature.city"` of the `city` table, `join_on`
returns `temperature` as the foreign table and `city` as the join column
on it, but returns the **foreign** table's primary key (`temp_pk`) as
the local anchor column, not `city`'s own primary key (`city_pk`) as the
claim states; the two coincide only when both tables use the default
primary key `id`. -/
theorem join_on_one2many_uses_foreign_pk :
    joinOn sch1 cityT ["temperatures"] envC =
      .ok (tempT, "city", tempT.primary_key) ∧
    tempT.primary_key ≠ cityT.primary_key :=
  ⟨by rfl, by decide⟩

/-- Under `nk_only=True` the loop of `default_columns` yields every
column unchanged. -/
theorem expandCols_true (sch : SchemaMap) (t : Table) :
    ∀ l, expandCols sch t true l = .ok l := by
  intro l
  induction l with
  | nil => simp [expandCols]
  | cons c rest ih => simp [expandCols, ih, Except.map]

/-- `default_columns(nk_only=True)` yields exactly the natural key. -/
theorem defaultColumns_true (sch : SchemaMap) (t : Table) :
    defaultColumns sch t true = .ok t.natural_key := by
  simp [defaultColumns, expandCols_true]

/-- The `nk_only=False` loop agrees with the specification's description
of the expansion. -/
theorem expandCols_false_eq_spec (sch : SchemaMap) (t : Table) :
    ∀ l, expandCols sch t false l = specExpand sch t l := by
  intro l
  induction l with
  | nil => simp [expandCols, specExpand]
  | cons c rest ih =>
    cases h : lookupStr t.foreign_keys c with
    | none => simp [expandCols, specExpand, h, ih]
    | some fname =>
      cases hs : sch fname with
      | none => simp [expandCols, specExpand, h, hs]
      | some ftable =>
        simp [expandCols, specExpand, h, hs, ih, defaultColumns_true]
        cases specExpand sch t rest <;> simp [Except.map, Bind.bind, Except.bind]

/-- C8: `default_columns()` yields names in column-declaration order,
passing non-foreign-key columns through unchanged and replacing each
foreign-key column `fk` by the dotted names `fk.k` over the target
table's natural-key-only default columns; with `nk_only=True` it yields
exactly the natural-key column names with no expansion. -/
theorem default_columns_expansion (sch : SchemaMap) (t : Table) :
    defaultColumns sch t false = specExpand sch t (t.columns.map (fun kv => kv.1)) ∧
    defaultColumns sch t true = .ok t.natural_key := by
  constructor
  · simp [defaultColumns, expandCols_false_eq_spec]
  · exact defaultColumns_true sch t

/-- C7: constructing a `Table` whose single-column natural key is also
declared as a foreign key targeting the table's own name fails with
`IncorrectTable` (the spec's SchemaDefinitionError); when every foreign
key differs from the natural-key column in name or in target, the check
passes and construction succeeds. -/
theorem mkTable_nk_fk_check (name nkc : String) (columns : List (String × String))
    (fks : List (String × String)) (nn : Option (List String))
    (o2m : Option (List (String × String))) (pk : Option String)
    (hcols : ∃ cs, buildColumns columns = .ok cs) :
    ((fks.find? (fun kv => kv.1 == nkc && kv.2 == name)).isSome →
      ∃ msg, mkTable name columns (some [nkc]) (some fks) nn o2m pk =
        .error (.incorrectTable msg)) ∧
    ((∀ kv ∈ fks, ¬(kv.1 = nkc ∧ kv.2 = name)) →
      (mkTable name columns (some [nkc]) (some fks) nn o2m pk).isOk = true) := by
  obtain ⟨cs, hcs⟩ := hcols
  constructor
  · intro hfk
    rw [Option.isSome_iff_exists] at hfk
    obtain ⟨kv, hkv⟩ := hfk
    refine ⟨"Table " ++ name ++ ": Foreign key " ++ kv.1 ++ " refers to table natural key", ?_⟩
    simp [mkTable, hcs, Bind.bind, Except.bind, hkv]
  · intro hfk
    have hnone : fks.find? (fun kv => kv.1 == nkc && kv.2 == name) = none := by
      rw [List.find?_eq_none]
      intro kv hmem
      have := hfk kv hmem
      simp only [Bool.and_eq_true, beq_iff_eq]
      tauto
    simp [mkTable, hcs, Bind.bind, Except.bind, hnone, Except.isOk, Except.toBool]

/-- Witness for C7: `Table("person", {"name": "varchar"},
natural_key=["name"], foreign_keys={"name": "person"})` fails with
`IncorrectTable`, while the same table with `foreign_keys={"parent":
"person"}` constructs successfully. -/
theorem mkTable_nk_fk_check_witness :
    (∃ msg, mkTable "person" [("name", "varchar")] (some ["name"])
      (some [("name", "person")]) none none none = .error (.incorrectTable msg)) ∧
    (mkTable "person" [("name", "varchar")] (some ["name"])
      (some [("parent", "person")]) none none none).isOk = true :=
  ⟨(mkTable_nk_fk_check "person" "name" [("name", "varchar")] [("name", "person")]
      none none none
      ⟨[("name", { name := "name", dtype := "str", dims := "" })], by rfl⟩).1
    (by decide),
   (mkTable_nk_fk_check "person" "name" [("name", "varchar")] [("parent", "person")]
      none none none
      ⟨[("name", { name := "name", dtype := "str", dims := "" })], by rfl⟩).2
    (by decide)⟩

theorem lookupRef_eq_none_iff (refs : Refs) (k : List String) :
    lookupRef refs k = none ↔ k ∉ keysOf refs := by
  simp [lookupRef, keysOf, List.find?_eq_none, List.mem_map]
  constructor
  · intro h x hx
    exact h k x hx rfl
  · rintro h a b hmem rfl
    exact h b hmem

theorem lookupRef_some_mem (refs : Refs) (k : List String) (v : String)
    (h : lookupRef refs k = some v) : k ∈ keysOf refs := by
  by_contra hmem
  have h0 := (lookupRef_eq_none_iff refs k).mpr hmem
  rw [h0] at h
  exact Option.noConfusion h

theorem dictInsert_keys (refs : Refs) (k : List String) (v : String) :
    keysOf (dictInsert refs k v) = keysOf refs ∨
    keysOf (dictInsert refs k v) = keysOf refs ++ [k] := by
  by_cases h : (refs.find? (fun kv => kv.1 == k)).isSome
  · left
    simp only [dictInsert, h, if_true, keysOf, List.map_map]
    apply List.map_congr_left
    intro kv _
    by_cases hk : kv.1 = k <;> simp [hk]
  · right
    simp [dictInsert, h, keysOf]

theorem dictInsert_absent (refs : Refs) (k : List String) (v : String)
    (h : k ∉ keysOf refs) : dictInsert refs k v = refs ++ [(k, v)] := by
  have hnone : refs.find? (fun kv => kv.1 == k) = none := by
    rw [List.find?_eq_none]
    intro kv hmem hbeq
    simp only [beq_iff_eq] at hbeq
    exact h (List.mem_map.mpr ⟨kv, hmem, hbeq⟩)
  simp [dictInsert, hnone]

theorem dictInsert_lookup (refs : Refs) (k : List String) (v : String) :
    lookupRef (dictInsert refs k v) k = some v := by
  by_cases h : (refs.find? (fun kv => kv.1 == k)).isSome
  · simp only [dictInsert, h, if_true]
    rw [lookupRef, List.find?_map]
    have hcomp : ((fun kv : List String × String => kv.1 == k) ∘
        fun kv : List String × String => if kv.1 == k then (kv.1, v) else kv) =
        fun kv => kv.1 == k := by
      funext kv
      by_cases hk : kv.1 = k <;> simp [hk]
    rw [hcomp]
    rw [Option.isSome_iff_exists] at h
    obtain ⟨kv0, hkv0⟩ := h
    have hk0 := List.find?_some hkv0
    simp only [hkv0, Option.map_some]
    simp only [beq_iff_eq] at hk0
    simp [hk0]
  · have hnone : refs.find? (fun kv => kv.1 == k) = none :=
      Option.not_isSome_iff_eq_none.mp h
    have hk : k ∉ keysOf refs := by
      apply (lookupRef_eq_none_iff refs k).mp
      simp [lookupRef, hnone]
    rw [dictInsert_absent refs k v hk, lookupRef, List.find?_append, hnone]
    simp

theorem underscore_append_ne (s t : String) : s ++ "_" ++ t ≠ "" := by
  intro h
  have h2 := congrArg String.data h
  simp [String.data_append] at h2

theorem registerPathAux_keys :
    ∀ (fuel : Nat) (refs : Refs) (pfx : List String), pfx.length < fuel →
      ∃ extk, keysOf (registerPathAux fuel refs pfx).1 = keysOf refs ++ extk ∧
        ∀ k ∈ extk, k.length ≤ pfx.length := by
  intro fuel
  induction fuel with
  | zero => intro refs pfx h; omega
  | succ n ih =>
    intro refs pfx h
    simp only [registerPathAux]
    by_cases ha : (lookupRef refs pfx).getD "" = ""
    · simp only [ha, ne_eq, not_true_eq_false, if_false]
      by_cases hl : 2 ≤ pfx.length
      · simp only [hl, if_true]
        have hdl : pfx.dropLast.length < n := by
          simp [List.length_dropLast]; omega
        obtain ⟨extk1, hk1, hb1⟩ := ih refs pfx.dropLast hdl
        rcases dictInsert_keys (registerPathAux n refs pfx.dropLast).1 pfx
            (pfx.getLastD "" ++ "_" ++ toString (registerPathAux n refs pfx.dropLast).1.length)
          with hd | hd
        · refine ⟨extk1, ?_, ?_⟩
          · rw [hd, hk1]
          · intro k hk
            have := hb1 k hk
            simp [List.length_dropLast] at this
            omega
        · refine ⟨extk1 ++ [pfx], ?_, ?_⟩
          · rw [hd, hk1, List.append_assoc]
          · intro k hk
            rcases List.mem_append.mp hk with hk | hk
            · have := hb1 k hk
              simp [List.length_dropLast] at this
              omega
            · simp at hk
              subst hk
              omega
      · simp only [hl, if_false]
        rcases dictInsert_keys refs pfx
            (pfx.getLastD "" ++ "_" ++ toString refs.length) with hd | hd
        · exact ⟨[], by rw [hd]; simp, by simp⟩
        · refine ⟨[pfx], by rw [hd], ?_⟩
          intro k hk
          simp at hk
          subst hk
          omega
    · simp only [ha, ne_eq, not_false_eq_true, if_true]
      exact ⟨[], by simp, by simp⟩

theorem registerPathAux_lookup :
    ∀ (fuel : Nat) (refs : Refs) (pfx : List String), pfx.length < fuel →
      lookupRef (registerPathAux fuel refs pfx).1 pfx =
        some (registerPathAux fuel refs pfx).2 ∧
      (registerPathAux fuel refs pfx).2 ≠ "" := by
  intro fuel
  induction fuel with
  | zero => intro refs pfx h; omega
  | succ n ih =>
    intro refs pfx h
    simp only [registerPathAux]
    by_cases ha : (lookupRef refs pfx).getD "" = ""
    · simp only [ha, ne_eq, not_true_eq_false, if_false]
      exact ⟨dictInsert_lookup _ _ _, underscore_append_ne _ _⟩
    · simp only [ha, ne_eq, not_false_eq_true, if_true]
      cases hlk : lookupRef refs pfx with
      | none => rw [hlk] at ha; simp at ha
      | some v =>
        simp only [hlk, Option.getD_some] at ha ⊢
        exact ⟨trivial, trivial⟩

theorem ordinalInv_lookup_ne (refs : Refs) (hinv : ordinalInv refs) (k : List String) :
    lookupRef refs k ≠ some "" := by
  intro h
  rw [lookupRef, Option.map_eq_some'] at h
  obtain ⟨kv, hf, hv⟩ := h
  have hmem := List.mem_of_find?_eq_some hf
  obtain ⟨⟨i, hi⟩, hget⟩ := List.mem_iff_get.mp hmem
  have h0 := hinv i hi
  rw [hget] at h0
  rw [hv] at h0
  exact underscore_append_ne _ _ h0.symm

theorem ordinalInv_append (refs : Refs) (pfx : List String)
    (hinv : ordinalInv refs) :
    ordinalInv (refs ++ [(pfx, pfx.getLastD "" ++ "_" ++ toString refs.length)]) := by
  intro i hi
  by_cases hie : i < refs.length
  · have h0 := hinv i hie
    simp only [List.get_eq_getElem] at h0 ⊢
    rw [List.getElem_append_left hie]
    exact h0
  · have hlen : i < refs.length + 1 := by simpa using hi
    have hieq : i = refs.length := by omega
    subst hieq
    simp only [List.get_eq_getElem]
    rw [List.getElem_concat_length refs _ _ rfl]

theorem keyInv_append (ks : List (List String)) (k : List String)
    (hinv : keyInv ks) (hpar : 2 ≤ k.length → k.dropLast ∈ ks) :
    keyInv (ks ++ [k]) := by
  intro i hi hlen
  by_cases hie : i < ks.length
  · simp only [List.get_eq_getElem] at hlen ⊢
    rw [List.getElem_append_left hie] at hlen ⊢
    rw [List.take_append_of_le_length (by omega)]
    exact hinv i hie hlen
  · have hlen2 : i < ks.length + 1 := by simpa using hi
    have hieq : i = ks.length := by omega
    subst hieq
    simp only [List.get_eq_getElem] at hlen ⊢
    rw [List.getElem_concat_length ks _ _ rfl] at hlen ⊢
    rw [List.take_left]
    exact hpar hlen

theorem registerPathAux_ordinal :
    ∀ (fuel : Nat) (refs : Refs) (pfx : List String), pfx.length < fuel →
      ordinalInv refs →
      ordinalInv (registerPathAux fuel refs pfx).1 ∧
      ∃ ext, (registerPathAux fuel refs pfx).1 = refs ++ ext := by
  intro fuel
  induction fuel with
  | zero => intro refs pfx h; omega
  | succ n ih =>
    intro refs pfx h hinv
    simp only [registerPathAux]
    by_cases ha : (lookupRef refs pfx).getD "" = ""
    · simp only [ha, ne_eq, not_true_eq_false, if_false]
      have hnone : lookupRef refs pfx = none := by
        cases hlk : lookupRef refs pfx with
        | none => rfl
        | some v =>
          exfalso
          rw [hlk] at ha
          simp only [Option.getD_some] at ha
          subst ha
          exact ordinalInv_lookup_ne refs hinv pfx hlk
      have hnotmem : pfx ∉ keysOf refs := (lookupRef_eq_none_iff refs pfx).mp hnone
      by_cases hl : 2 ≤ pfx.length
      · simp only [hl, if_true]
        have hdl : pfx.dropLast.length < n := by
          simp [List.length_dropLast]; omega
        obtain ⟨hinv1, ext1, hext1⟩ := ih refs pfx.dropLast hdl hinv
        obtain ⟨extk1, hk1, hb1⟩ := registerPathAux_keys n refs pfx.dropLast hdl
        have hpfx_not : pfx ∉ keysOf (registerPathAux n refs pfx.dropLast).1 := by
          intro hmem
          rw [hk1] at hmem
          rcases List.mem_append.mp hmem with hm | hm
          · exact hnotmem hm
          · have := hb1 pfx hm
            simp [List.length_dropLast] at this
            omega
        rw [dictInsert_absent _ pfx _ hpfx_not]
        refine ⟨ordinalInv_append _ pfx hinv1,
          ext1 ++ [(pfx, pfx.getLastD "" ++ "_" ++
            toString (registerPathAux n refs pfx.dropLast).1.length)], ?_⟩
        rw [hext1, List.append_assoc]
      · simp only [hl, if_false]
        rw [dictInsert_absent refs pfx _ hnotmem]
        exact ⟨ordinalInv_append refs pfx hinv,
          [(pfx, pfx.getLastD "" ++ "_" ++ toString refs.length)], rfl⟩
    · simp only [ha, ne_eq, not_false_eq_true, if_true]
      exact ⟨hinv, [], by simp⟩

theorem registerPathAux_keyInv :
    ∀ (fuel : Nat) (refs : Refs) (pfx : List String), pfx.length < fuel →
      keyInv (keysOf refs) →
      keyInv (keysOf (registerPathAux fuel refs pfx).1) := by
  intro fuel
  induction fuel with
  | zero => intro refs pfx h; omega
  | succ n ih =>
    intro refs pfx h hinv
    simp only [registerPathAux]
    by_cases ha : (lookupRef refs pfx).getD "" = ""
    · simp only [ha, ne_eq, not_true_eq_false, if_false]
      by_cases hl : 2 ≤ pfx.length
      · simp only [hl, if_true]
        have hdl : pfx.dropLast.length < n := by
          simp [List.length_dropLast]; omega
        have hinv1 := ih refs pfx.dropLast hdl hinv
        have hlk1 := (registerPathAux_lookup n refs pfx.dropLast hdl).1
        have hparent := lookupRef_some_mem _ _ _ hlk1
        rcases dictInsert_keys (registerPathAux n refs pfx.dropLast).1 pfx
            (pfx.getLastD "" ++ "_" ++ toString (registerPathAux n refs pfx.dropLast).1.length)
          with hd | hd
        · rw [hd]; exact hinv1
        · rw [hd]
          exact keyInv_append _ _ hinv1 (fun _ => hparent)
      · simp only [hl, if_false]
        rcases dictInsert_keys refs pfx
            (pfx.getLastD "" ++ "_" ++ toString refs.length) with hd | hd
        · rw [hd]; exact hinv
        · rw [hd]
          apply keyInv_append _ _ hinv
          intro h2
          omega
    · simp only [ha, ne_eq, not_false_eq_true, if_true]
      exact hinv

theorem registerPath_idem (refs : Refs) (pfx : List String) :
    registerPath (registerPath refs pfx).1 pfx =
      ((registerPath refs pfx).1, (registerPath refs pfx).2) := by
  have hlk := registerPathAux_lookup (pfx.length + 1) refs pfx (by omega)
  rcases hrp : registerPath refs pfx with ⟨R, al⟩
  rw [registerPath] at hrp
  rw [hrp] at hlk
  simp only at hlk
  rw [registerPath, registerPathAux]
  simp [hlk.1, hlk.2]

/-- C2: within one Env, every entry of the refs mapping carries the alias
`<last-segment-of-its-key>_<k>` where `k` is its zero-based insertion
position — so the k-th newly registered prefix receives ordinal `k`
(the number of entries already present at allocation), ordinals increase
monotonically and are never reused; `add_ref` only ever appends new
entries (earlier allocations are untouched), and calling `add_ref` again
with the same path returns the same alias without allocating. -/
theorem add_ref_alias_ordinals (e : Env) (path : List String) (e2 : Env) (s : String)
    (hinv : ordinalInv e.refs) (h : e.addRef path = some (e2, s)) :
    ordinalInv e2.refs ∧ (∃ ext, e2.refs = e.refs ++ ext) ∧
    e2.addRef path = some (e2, s) := by
  match path with
  | [] => simp [Env.addRef, add_ref] at h
  | [x] => simp [Env.addRef, add_ref] at h
  | a :: b :: rest =>
    simp only [Env.addRef, add_ref, Option.map_some'] at h
    rw [Option.some.injEq, Prod.mk.injEq] at h
    obtain ⟨he, hs⟩ := h
    have hord := registerPathAux_ordinal ((a :: b :: rest).dropLast.length + 1)
      e.refs (a :: b :: rest).dropLast (by omega) hinv
    constructor
    · rw [← he]
      exact hord.1
    constructor
    · rw [← he]
      exact hord.2
    · have hidem := registerPath_idem e.refs (a :: b :: rest).dropLast
      simp only [Env.addRef, add_ref, Option.map_some']
      rw [← he, ← hs]
      simp only [registerPath] at hidem ⊢
      rw [hidem]

/-- C3: `add_ref` preserves the invariant that every registered prefix of
length at least two is preceded, in the refs mapping's insertion order,
by its parent prefix (it registers the parent first, recursively), so a
join-emission pass iterating the refs in insertion order always finds
each join's anchor already present. -/
theorem add_ref_parent_first (e : Env) (path : List String) (e2 : Env) (s : String)
    (hinv : keyInv (keysOf e.refs)) (h : e.addRef path = some (e2, s)) :
    keyInv (keysOf e2.refs) := by
  match path with
  | [] => simp [Env.addRef, add_ref] at h
  | [x] => simp [Env.addRef, add_ref] at h
  | a :: b :: rest =>
    simp only [Env.addRef, add_ref, Option.map_some'] at h
    rw [Option.some.injEq, Prod.mk.injEq] at h
    obtain ⟨he, hs⟩ := h
    rw [← he]
    exact registerPathAux_keyInv ((a :: b :: rest).dropLast.length + 1)
      e.refs (a :: b :: rest).dropLast (by omega) hinv

/-- Witness for C2: concrete run of `add_ref` on a fresh Env bound to
`person` with the path `parent.name`. -/
theorem add_ref_alias_ordinals_witness :
    ordinalInv (Env.mk personT []).refs ∧
    (Env.mk personT []).addRef ["parent", "name"] =
      some (⟨personT, [(["parent"], "parent_0")]⟩, "\"parent_0\".\"name\"") ∧
    (ordinalInv (⟨personT, [(["parent"], "parent_0")]⟩ : Env).refs ∧
     (∃ ext, (⟨personT, [(["parent"], "parent_0")]⟩ : Env).refs =
        (Env.mk personT []).refs ++ ext) ∧
     (⟨personT, [(["parent"], "parent_0")]⟩ : Env).addRef ["parent", "name"] =
       some (⟨personT, [(["parent"], "parent_0")]⟩, "\"parent_0\".\"name\"")) :=
  ⟨by intro i hi; simp at hi, by decide,
   add_ref_alias_ordinals (Env.mk personT []) ["parent", "name"]
     ⟨personT, [(["parent"], "parent_0")]⟩ "\"parent_0\".\"name\""
     (by intro i hi; simp at hi) (by decide)⟩

/-- Witness for C3: concrete run of `add_ref` on a fresh Env bound to
`person` with the two-level path `parent.parent.name`; the parent prefix
is registered first. -/
theorem add_ref_parent_first_witness :
    keyInv (keysOf (Env.mk personT []).refs) ∧
    (Env.mk personT []).addRef ["parent", "parent", "name"] =
      some (⟨personT, [(["parent"], "parent_0"), (["parent", "parent"], "parent_1")]⟩,
        "\"parent_1\".\"name\"") ∧
    keyInv (keysOf (⟨personT,
      [(["parent"], "parent_0"), (["parent", "parent"], "parent_1")]⟩ : Env).refs) :=
  ⟨by intro i hi; simp [keysOf] at hi, by decide,
   add_ref_parent_first (Env.mk personT []) ["parent", "parent", "name"]
     ⟨personT, [(["parent"], "parent_0"), (["parent", "parent"], "parent_1")]⟩
     "\"parent_1\".\"name\""
     (by intro i hi; simp [keysOf] at hi) (by decide)⟩

/-- C5: evaluating the two parsed conditions of src/tests/test_sexpr.py
against a fresh Env bound to `person` registers exactly the claimed refs
mappings and produces exactly the claimed SQL texts. -/
theorem eval_join_scenarios :
    (evalAst astA { table := personT, refs := [] }).2.refs =
      [(["parent"], "parent_0"), (["parent", "parent"], "parent_1")] ∧
    (evalAst astA { table := personT, refs := [] }).1 =
      "(\"parent_0\".\"name\" = " ++ sq ++ "Roger" ++ sq ++
        ") AND (\"parent_1\".\"name\" = " ++ sq ++ "George" ++ sq ++ ")" ∧
    (evalAst astB { table := personT, refs := [] }).2.refs =
      [(["parent"], "parent_0")] ∧
    (evalAst astB { table := personT, refs := [] }).1 =
      "(\"parent_0\".\"name\" = " ++ sq ++ "Roger" ++ sq ++
        ") AND (\"parent_0\".\"id\" = 1)" := by
  refine ⟨by decide, by decide, by decide, by decide⟩

/-- C10: `Env.clone` returns a new Env bound to the same table whose
refs equal the original's refs at the moment of cloning; afterwards
`add_ref` on the clone never modifies the original's refs (in any later
store state), and `add_ref` on the original never modifies the clone's
refs: the copy in `clone` allocates a fresh dict, so the two cells are
distinct. -/
theorem clone_frame (s : Store) (e : EnvH) (h : e.cell < s.length) :
    (cloneH s e).2.table = e.table ∧
    readCell (cloneH s e).1 (cloneH s e).2.cell = readCell s e.cell ∧
    (∀ (s2 : Store) (p : List String),
      readCell (addRefH s2 (cloneH s e).2 p).1 e.cell = readCell s2 e.cell) ∧
    (∀ (s2 : Store) (p : List String),
      readCell (addRefH s2 e p).1 (cloneH s e).2.cell =
        readCell s2 (cloneH s e).2.cell) := by
  refine ⟨rfl, ?_, ?_, ?_⟩
  · simp only [cloneH, readCell, List.getD_eq_getElem?_getD,
      List.getElem?_concat_length]
    rfl
  · intro s2 p
    rcases h2 : add_ref (readCell s2 s.length) p with _ | r
    · simp only [cloneH, addRefH, h2]
    · simp only [cloneH, addRefH, h2]
      simp only [readCell, List.getD_eq_getElem?_getD]
      rw [List.getElem?_set_ne (by omega)]
  · intro s2 p
    rcases h2 : add_ref (readCell s2 e.cell) p with _ | r
    · simp only [cloneH, addRefH, h2]
    · simp only [cloneH, addRefH, h2]
      simp only [readCell, List.getD_eq_getElem?_getD]
      rw [List.getElem?_set_ne (by omega)]

/-- Witness for C10: cloning an Env over a one-cell store and running
`add_ref` on the clone leaves the original refs dict untouched. -/
theorem clone_frame_witness :
    (⟨personT, 0⟩ : EnvH).cell < ([[]] : Store).length ∧
    (cloneH [[]] ⟨personT, 0⟩).2.table = personT ∧
    readCell (addRefH (cloneH [[]] ⟨personT, 0⟩).1
        (cloneH [[]] ⟨personT, 0⟩).2 ["parent", "name"]).1 0 =
      readCell (cloneH [[]] ⟨personT, 0⟩).1 0 :=
  ⟨by decide,
   (clone_frame [[]] ⟨personT, 0⟩ (by decide)).1,
   (clone_frame [[]] ⟨personT, 0⟩ (by decide)).2.2.1
     (cloneH [[]] ⟨personT, 0⟩).1 ["parent", "name"]⟩

theorem netOf_append : ∀ (a b : List Tok), netOf (a ++ b) = netOf a + netOf b := by
  intro a b
  induction a with
  | nil => simp [netOf]
  | cons t r ih =>
    cases t <;> simp [netOf, ih] <;> omega

theorem minOf_nonpos : ∀ (l : List Tok), minOf l ≤ 0 := by
  intro l
  induction l with
  | nil => simp [minOf]
  | cons t r ih =>
    cases t <;> simp [minOf] <;> omega

theorem minOf_append : ∀ (a b : List Tok),
    minOf (a ++ b) = min (minOf a) (netOf a + minOf b) := by
  intro a b
  induction a with
  | nil =>
    simp [minOf, netOf]
    exact minOf_nonpos b
  | cons t r ih =>
    cases t <;> simp [minOf, netOf, ih] <;> omega

theorem parseMany_step_aux (n : Nat)
    (ihE : ∀ toks a rest, parseExpr n toks = .ok (a, rest) →
      ∃ pre, toks = pre ++ rest ∧ 0 ≤ netOf pre ∧ 0 ≤ minOf pre)
    (ihM : ∀ toks as rest, parseMany n toks = .ok (as, rest) →
      ∃ pre, toks = pre ++ rest ∧ 0 ≤ netOf pre ∧ 0 ≤ minOf pre)
    (toks : List Tok) (rest : List Tok)
    (hstep : ∃ a1 r1 as2, parseExpr n toks = .ok (a1, r1) ∧
      parseMany n r1 = .ok (as2, rest)) :
    ∃ pre, toks = pre ++ rest ∧ 0 ≤ netOf pre ∧ 0 ≤ minOf pre := by
  obtain ⟨a1, r1, as2, hE, hM⟩ := hstep
  obtain ⟨pre1, hp1, hn1, hm1⟩ := ihE toks a1 r1 hE
  obtain ⟨pre2, hp2, hn2, hm2⟩ := ihM r1 as2 rest hM
  refine ⟨pre1 ++ pre2, ?_, ?_, ?_⟩
  · rw [hp1, hp2, List.append_assoc]
  · rw [netOf_append]
    omega
  · rw [minOf_append]
    omega

theorem parse_consumed_balanced :
    ∀ fuel : Nat,
      (∀ toks a rest, parseExpr fuel toks = .ok (a, rest) →
        ∃ pre, toks = pre ++ rest ∧ 0 ≤ netOf pre ∧ 0 ≤ minOf pre) ∧
      (∀ toks as rest, parseMany fuel toks = .ok (as, rest) →
        ∃ pre, toks = pre ++ rest ∧ 0 ≤ netOf pre ∧ 0 ≤ minOf pre) := by
  intro fuel
  induction fuel with
  | zero =>
    constructor
    · intro toks a rest h
      simp [parseExpr] at h
    · intro toks as rest h
      simp [parseMany] at h
  | succ n ih =>
    obtain ⟨ihE, ihM⟩ := ih
    constructor
    · intro toks a rest h
      match toks with
      | [] => simp [parseExpr] at h
      | .intTok m :: r =>
        simp only [parseExpr, Except.ok.injEq, Prod.mk.injEq] at h
        obtain ⟨ha, hr⟩ := h
        subst hr
        exact ⟨[.intTok m], rfl, by simp [netOf], by simp [minOf]⟩
      | .strTok s :: r =>
        simp only [parseExpr, Except.ok.injEq, Prod.mk.injEq] at h
        obtain ⟨ha, hr⟩ := h
        subst hr
        exact ⟨[.strTok s], rfl, by simp [netOf], by simp [minOf]⟩
      | .paramTok :: r =>
        simp only [parseExpr, Except.ok.injEq, Prod.mk.injEq] at h
        obtain ⟨ha, hr⟩ := h
        subst hr
        exact ⟨[.paramTok], rfl, by simp [netOf], by simp [minOf]⟩
      | .nameTok s :: r =>
        simp only [parseExpr, Except.ok.injEq, Prod.mk.injEq] at h
        obtain ⟨ha, hr⟩ := h
        subst hr
        exact ⟨[.nameTok s], rfl, by simp [netOf], by simp [minOf]⟩
      | .rparen :: r => simp [parseExpr] at h
      | .lparen :: r =>
        match r with
        | [] => simp [parseExpr] at h
        | .lparen :: r2 => simp [parseExpr] at h
        | .rparen :: r2 => simp [parseExpr] at h
        | .intTok m :: r2 => simp [parseExpr] at h
        | .strTok s :: r2 => simp [parseExpr] at h
        | .paramTok :: r2 => simp [parseExpr] at h
        | .nameTok op :: r2 =>
          rcases hm : parseMany n r2 with e | ⟨args, r3⟩
          · simp [parseExpr, hm] at h
          · obtain ⟨pre2, hpre2, hnet2, hmin2⟩ := ihM r2 args r3 hm
            match r3 with
            | .rparen :: r4 =>
              simp only [parseExpr, hm, Except.ok.injEq, Prod.mk.injEq] at h
              obtain ⟨ha, hr⟩ := h
              subst hr
              refine ⟨.lparen :: .nameTok op :: (pre2 ++ [.rparen]), ?_, ?_, ?_⟩
              · simp only [hpre2]
                simp [List.append_assoc]
              · simp only [netOf, netOf_append]
                simp [netOf]
                omega
              · simp only [minOf, minOf_append, netOf, netOf_append]
                simp [minOf, netOf]
                omega
            | [] =>
              simp only [parseExpr, hm, Except.ok.injEq, Prod.mk.injEq] at h
              obtain ⟨ha, hr⟩ := h
              subst hr
              refine ⟨.lparen :: .nameTok op :: pre2, ?_, ?_, ?_⟩
              · simp only [List.append_nil] at hpre2
                simp [hpre2]
              · simp only [netOf]
                omega
              · simp only [minOf]
                omega
            | .lparen :: r4 => simp [parseExpr, hm] at h
            | .intTok m :: r4 => simp [parseExpr, hm] at h
            | .strTok s :: r4 => simp [parseExpr, hm] at h
            | .paramTok :: r4 => simp [parseExpr, hm] at h
            | .nameTok s2 :: r4 => simp [parseExpr, hm] at h
    · intro toks as rest h
      have hcons : ∀ (t : Tok) (r : List Tok),
          parseMany (n + 1) (t :: r) = .ok (as, rest) → t ≠ .rparen →
          ∃ a1 r1 as2, parseExpr n (t :: r) = .ok (a1, r1) ∧
            parseMany n r1 = .ok (as2, rest) := by
        intro t r hh hne
        have hred : parseMany (n + 1) (t :: r) =
            (match parseExpr n (t :: r) with
             | .error e => .error e
             | .ok (a, r1) =>
               match parseMany n r1 with
               | .error e => .error e
               | .ok (as2, r2) => .ok (a :: as2, r2)) := by
          cases t
          case rparen => exact absurd rfl hne
          all_goals rfl
        rw [hred] at hh
        rcases hE : parseExpr n (t :: r) with e | ⟨a1, r1⟩
        · rw [hE] at hh
          simp at hh
        · rw [hE] at hh
          dsimp only at hh
          rcases hM2 : parseMany n r1 with e | ⟨as2, r2⟩
          · rw [hM2] at hh
            simp at hh
          · rw [hM2] at hh
            dsimp only at hh
            simp only [Except.ok.injEq, Prod.mk.injEq] at hh
            exact ⟨a1, r1, as2, rfl, by rw [hM2, hh.2]⟩
      match toks with
      | [] =>
        simp only [parseMany, Except.ok.injEq, Prod.mk.injEq] at h
        obtain ⟨ha, hr⟩ := h
        subst hr
        exact ⟨[], rfl, by simp [netOf], by simp [minOf]⟩
      | .rparen :: r =>
        simp only [parseMany, Except.ok.injEq, Prod.mk.injEq] at h
        obtain ⟨ha, hr⟩ := h
        subst hr
        exact ⟨[], rfl, by simp [netOf], by simp [minOf]⟩
      | .lparen :: r =>
        exact parseMany_step_aux n ihE ihM _ _ (hcons _ r h (by simp))
      | .intTok m :: r =>
        exact parseMany_step_aux n ihE ihM _ _ (hcons _ r h (by simp))
      | .strTok s :: r =>
        exact parseMany_step_aux n ihE ihM _ _ (hcons _ r h (by simp))
      | .paramTok :: r =>
        exact parseMany_step_aux n ihE ihM _ _ (hcons _ r h (by simp))
      | .nameTok s :: r =>
        exact parseMany_step_aux n ihE ihM _ _ (hcons _ r h (by simp))

/-- C9 (amended): whenever `parse` succeeds, the lexer recognized every
token and no leading part of the token sequence closes more parentheses
than it opened; contrapositively, an unrecognized token or an unmatched
closing parenthesis always fails (and, `parse` being `Except`-valued, a
failure produces no partial result).  The original claim's "unbalanced
parentheses always fail" is false on this code base: opening parentheses
left unclosed at end of input are implicitly closed, as required by
src/tests/test_sexpr.py. -/
theorem parse_ok_no_excess_close (text : String) (ast : SAst)
    (h : parse text = .ok ast) :
    ∃ toks, tokenize text.data = .ok toks ∧ 0 ≤ minOf toks := by
  simp only [parse] at h
  rcases ht : tokenize text.data with e | toks <;> rw [ht] at h
  · simp at h
  · dsimp only at h
    rcases hp : parseExpr (2 * toks.length + 2) toks with e | ⟨a, rest⟩
    · rw [hp] at h
      simp at h
    · rw [hp] at h
      dsimp only at h
      rcases rest with _ | ⟨t, r⟩
      · obtain ⟨pre, hpre, hnet, hmin⟩ :=
          (parse_consumed_balanced (2 * toks.length + 2)).1 toks a [] hp
        rw [List.append_nil] at hpre
        exact ⟨toks, rfl, by rw [hpre]; exact hmin⟩
      · cases t <;> simp at h

/-- Witness for C9: `(= a 1)` parses, its tokens are all recognized and
its parentheses have no unmatched close. -/
theorem parse_ok_no_excess_close_witness :
    parse "(= a 1)" = .ok (.op "=" [.var ["a"], .intLit 1]) ∧
    ∃ toks, tokenize "(= a 1)".data = .ok toks ∧ 0 ≤ minOf toks :=
  ⟨by rfl,
   parse_ok_no_excess_close "(= a 1)" (.op "=" [.var ["a"], .intLit 1]) (by rfl)⟩

/-- Counterexample to C9 as stated: the input
`(and (= parent.name 'Roger')` of src/tests/test_sexpr.py has two
opening parentheses and only one closing parenthesis — unbalanced — yet
`parse` succeeds, exactly as that in-src test requires. -/
theorem parse_accepts_unbalanced :
    (parse testInput).isOk = true ∧
    countChar (Char.ofNat 40) testInput ≠ countChar (Char.ofNat 41) testInput :=
  ⟨by rfl, by decide⟩

end Nagra
